import Mathlib

set_option maxRecDepth 8192

/-!
Shallow embedding of the three scripts of the `digital-volume` repository:

* `fetch_debates_2026.py` — a date-range HTTP fetcher (`FetchDebates`),
* `generate_available_dates.py` — a filename-to-date index generator
  (`GenerateAvailableDates`),
* `up_to_HF.py` — a bulk folder uploader (`UpToHF`).

Modelling conventions:

* Bytes (`bytes` in Python) are `List Nat` (each entry a byte value);
  the byte-level operations `lstrip`, `lower`, slicing and `startswith`
  are translated element by element.
* Calendar dates are modelled by their ordinal number (`Nat`), exactly as
  `datetime.date.toordinal` linearises them: `d + timedelta(days=1)` is
  `d + 1`, and `d <= e` is `d ≤ e`.  `date.isoformat` is kept as an
  (arbitrary) parameter `iso : Nat → String` of the fetch loop, since no
  claim depends on the rendering of a particular date.
* The network and the filesystem are oracles passed to the loop:
  `wGet d` is the result of `session.get` for date `d` (`none` models a
  raised exception), and `wWrite d` tells whether `write_bytes` for date
  `d` succeeds (`false` models a raised exception; the write is taken to
  be atomic, so a failed write leaves no file).
-/

namespace FetchDebates

/-- ASCII whitespace bytes stripped by Python's `bytes.lstrip()`:
space, tab, newline, carriage return, vertical tab, form feed. -/
def isSpaceByte (b : Nat) : Bool :=
  b == 32 || b == 9 || b == 10 || b == 13 || b == 11 || b == 12

/-- Python's `bytes.lower()`, one byte at a time: ASCII `A`–`Z` shift to
`a`–`z`, all other bytes unchanged. -/
def lowerByte (b : Nat) : Nat :=
  if 65 ≤ b ∧ b ≤ 90 then b + 32 else b

/-- The bytes of `b"<!doctype html"`. -/
def doctypeHtmlBytes : List Nat :=
  [60, 33, 100, 111, 99, 116, 121, 112, 101, 32, 104, 116, 109, 108]

/-- The bytes of `b"<html"`. -/
def htmlTagBytes : List Nat := [60, 104, 116, 109, 108]

/-- The bytes of `b"<?xml"`. -/
def xmlDeclBytes : List Nat := [60, 63, 120, 109, 108]

/-- Model of `looks_like_xml` from `fetch_debates_2026.py`:
reject empty or short (< 100 bytes) bodies; compute
`head = content.lstrip()[:500].lower()`; reject heads that start with
`<!doctype html` or `<html`; accept heads that start with `<?xml` or `<`. -/
def looks_like_xml (content : List Nat) : Bool :=
  if content = [] ∨ content.length < 100 then false
  else
    let head := ((content.dropWhile isSpaceByte).take 500).map lowerByte
    if doctypeHtmlBytes.isPrefixOf head || htmlTagBytes.isPrefixOf head then false
    else xmlDeclBytes.isPrefixOf head || ([60] : List Nat).isPrefixOf head

/-- An HTTP response, as the fetch loop inspects it: `status` is
`r.status_code` and `body` is `r.content`. -/
structure Response where
  status : Nat
  body : List Nat

/-- The observable state the fetch loop accumulates:
`requests` is the list of dates for which `session.get` was called, in
call order; `files` records each completed `write_bytes` as
(file name, bytes written); `errDates` lists the dates whose iteration
raised an exception (caught and logged by the `except` clause);
`saved` and `missing` are the two counters. -/
structure FetchState where
  requests : List Nat
  files : List (String × List Nat)
  errDates : List Nat
  saved : Nat
  missing : Nat

/-- The state at loop entry: no requests, no files, both counters zero. -/
def initState : FetchState := ⟨[], [], [], 0, 0⟩

/-- Whether the iteration for date `d` raises an exception: the GET
itself raises, or the GET returns a 200 response that passes the sniff
and the file write raises. -/
def raisesAt (wGet : Nat → Option Response) (wWrite : Nat → Bool) (d : Nat) : Bool :=
  match wGet d with
  | none => true
  | some r =>
    if r.status == 404 then false
    else if r.status == 200 && looks_like_xml r.body then !(wWrite d)
    else false

/-- One iteration of the `while d <= END_DATE` loop body for date `d`:
issue the GET, then branch exactly as the source does — `404` counts as
missing; `200` with a sniff-passing body writes
`<iso d>_mul@.xml` and counts as saved; anything else counts as missing;
a raised exception is caught and the date recorded in `errDates`. -/
def step (wGet : Nat → Option Response) (wWrite : Nat → Bool)
    (iso : Nat → String) (s : FetchState) (d : Nat) : FetchState :=
  let s := { s with requests := s.requests ++ [d] }
  match wGet d with
  | none => { s with errDates := s.errDates ++ [d] }
  | some r =>
    if r.status == 404 then { s with missing := s.missing + 1 }
    else if r.status == 200 && looks_like_xml r.body then
      if wWrite d then
        { s with
          files := s.files ++ [(iso d ++ "_mul@.xml", r.body)],
          saved := s.saved + 1 }
      else { s with errDates := s.errDates ++ [d] }
    else { s with missing := s.missing + 1 }

/-- Model of `main` of `fetch_debates_2026.py`: run the loop body once for each
date from `startD` to `endD` inclusive, in ascending order
(`List.range' startD (endD + 1 - startD)` is exactly that date interval;
it is empty when `startD > endD`, as the `while` guard fails at once). -/
def main (wGet : Nat → Option Response) (wWrite : Nat → Bool)
    (iso : Nat → String) (startD endD : Nat) : FetchState :=
  (List.range' startD (endD + 1 - startD)).foldl (step wGet wWrite iso) initState

end FetchDebates

namespace GenerateAvailableDates

/-!
`generate_available_dates.py` lists the files of the remote dataset,
matches each path against the regex `(\d{4}-\d{2}-\d{2})_mul@\.xml$`,
collects the captured group of every match into a set, and writes the
sorted set as a JSON array.

Regex semantics (Python `re`, no flags): `\d` matches any Unicode
decimal digit — category `Nd`, embedded below as an explicit range
table — and `$` matches at the very end of the string or just before a
newline that is the string's last character.  The pattern is
fixed-length (19 characters) and ends in `$`, so a match, if any, is
the 19-character window ending at the end of the string, or, when the
string ends in a newline, the window ending just before that newline;
the two cases exclude each other (the window's last character is `l`).
The `set` followed by `sorted` is modelled as `dedup` followed by an
ascending sort: both produce the sorted list of the distinct extracted
dates.
-/

/-- Code-point ranges of the Unicode decimal digits (category `Nd`,
Unicode 14.0) — exactly the characters Python's `\d` matches. -/
def ndDigitRanges : List (Nat × Nat) :=
  [(0x30, 0x39), (0x660, 0x669), (0x6F0, 0x6F9), (0x7C0, 0x7C9),
   (0x966, 0x96F), (0x9E6, 0x9EF), (0xA66, 0xA6F), (0xAE6, 0xAEF),
   (0xB66, 0xB6F), (0xBE6, 0xBEF), (0xC66, 0xC6F), (0xCE6, 0xCEF),
   (0xD66, 0xD6F), (0xDE6, 0xDEF), (0xE50, 0xE59), (0xED0, 0xED9),
   (0xF20, 0xF29), (0x1040, 0x1049), (0x1090, 0x1099), (0x17E0, 0x17E9),
   (0x1810, 0x1819), (0x1946, 0x194F), (0x19D0, 0x19D9), (0x1A80, 0x1A89),
   (0x1A90, 0x1A99), (0x1B50, 0x1B59), (0x1BB0, 0x1BB9), (0x1C40, 0x1C49),
   (0x1C50, 0x1C59), (0xA620, 0xA629), (0xA8D0, 0xA8D9), (0xA900, 0xA909),
   (0xA9D0, 0xA9D9), (0xA9F0, 0xA9F9), (0xAA50, 0xAA59), (0xABF0, 0xABF9),
   (0xFF10, 0xFF19), (0x104A0, 0x104A9), (0x10D30, 0x10D39),
   (0x11066, 0x1106F), (0x110F0, 0x110F9), (0x11136, 0x1113F),
   (0x111D0, 0x111D9), (0x112F0, 0x112F9), (0x11450, 0x11459),
   (0x114D0, 0x114D9), (0x11650, 0x11659), (0x116C0, 0x116C9),
   (0x11730, 0x11739), (0x118E0, 0x118E9), (0x11950, 0x11959),
   (0x11C50, 0x11C59), (0x11D50, 0x11D59), (0x11DA0, 0x11DA9),
   (0x16A60, 0x16A69), (0x16AC0, 0x16AC9), (0x16B50, 0x16B59),
   (0x1D7CE, 0x1D7FF), (0x1E140, 0x1E149), (0x1E2F0, 0x1E2F9),
   (0x1E950, 0x1E959), (0x1FBF0, 0x1FBF9)]

/-- Python's `\d` on a single character: a Unicode decimal digit. -/
def isReDigit (c : Char) : Bool :=
  ndDigitRanges.any (fun r => Nat.ble r.1 c.toNat && Nat.ble c.toNat r.2)

/-- The capture group `\d{4}-\d{2}-\d{2}` of `date_pattern`, on a
10-character window: four digits, a hyphen, two digits, a hyphen, two
digits (digits in the sense of `\d`, i.e. `isReDigit`). -/
def isDateDigits (cs : List Char) : Bool :=
  match cs with
  | [a, b, c, d, h1, e, f, h2, g, k] =>
    isReDigit a && isReDigit b && isReDigit c && isReDigit d && h1 == '-' &&
      isReDigit e && isReDigit f && h2 == '-' && isReDigit g && isReDigit k
  | _ => false

/-- The literal tail `_mul@\.xml` of `date_pattern`. -/
def xmlSuffix : List Char := ['_', 'm', 'u', 'l', '@', '.', 'x', 'm', 'l']

/-- The 19-character window of the pattern ending at the end of `cs`:
`some` of the captured 10-character group when the window is a
`\d{4}-\d{2}-\d{2}` block followed by `_mul@.xml`, else `none`. -/
def matchWindow (cs : List Char) : Option (List Char) :=
  if cs.length < 19 then none
  else if isDateDigits ((cs.drop (cs.length - 19)).take 10) &&
      (cs.drop (cs.length - 19)).drop 10 == xmlSuffix then
    some ((cs.drop (cs.length - 19)).take 10)
  else none

/-- The newline character `\n` (code point 10), written out so that the
`$`-before-trailing-newline case of the regex is explicit. -/
def newlineChar : Char := Char.ofNat 10

/-- Model of `date_pattern.search(f)` followed by `m.group(1)`: since
the pattern ends in `$`, the only candidate windows are the one ending
at the end of the string and — when the string ends in a newline — the
one ending just before that final newline. -/
def extractDate (s : String) : Option String :=
  (if s.data.getLast? = some newlineChar then matchWindow s.data.dropLast
   else matchWindow s.data).map String.mk

/-- Python's `<=` on strings, on the underlying character lists:
lexicographic comparison by code point. -/
def charListLe : List Char → List Char → Bool
  | [], _ => true
  | _ :: _, [] => false
  | a :: as, b :: bs =>
    if a < b then true
    else if a = b then charListLe as bs
    else false

/-- Python's `<=` on strings: lexicographic by code point. -/
def pyLe (a b : String) : Bool := charListLe a.data b.data

/-- Model of `main` of `generate_available_dates.py`, as a function from the
remote file listing to the JSON array it writes: extract a date from
each matching path, deduplicate (the `set`), and sort ascending
(`sorted`, with Python's string order). -/
def main (files : List String) : List String :=
  ((files.filterMap extractDate).dedup).insertionSort (fun a b => pyLe a b = true)

end GenerateAvailableDates

namespace UpToHF

/-!
`up_to_HF.py` checks that the hardcoded source directory exists, raising
`SystemExit` if not; otherwise it lists the `*.xml` files under it
(recursively) and calls `api.upload_large_folder`.  The filesystem is an
oracle: whether the directory exists, and the recursive listing.
-/

/-- The hardcoded `DAIL_DIR` path. -/
def DAIL_DIR : String :=
  "/Users/david/Developer/2026-01-20_debates_edition/data/xml/dail"

/-- The externally visible calls `main` can make, in order: the
recursive `rglob` listing, then the `upload_large_folder` call. -/
inductive UpEvent where
  | rglobList : UpEvent
  | uploadLargeFolder : UpEvent
deriving DecidableEq

/-- The filesystem as `up_to_HF.py` observes it. -/
structure UpWorld where
  dailDirExists : Bool
  xmlFiles : List String

/-- Model of `main` of `up_to_HF.py`: the trace of external calls made, paired
with the outcome — `Except.error` models the `raise SystemExit` path. -/
def main (w : UpWorld) : List UpEvent × Except String Unit :=
  if w.dailDirExists = false then
    ([], Except.error ("DAIL_DIR not found: " ++ DAIL_DIR))
  else
    ([UpEvent.rglobList, UpEvent.uploadLargeFolder], Except.ok ())

end UpToHF

namespace FetchDebates

theorem step_requests (wGet : Nat → Option Response) (wWrite : Nat → Bool)
    (iso : Nat → String) (s : FetchState) (d : Nat) :
    (step wGet wWrite iso s d).requests = s.requests ++ [d] := by
  unfold step
  rcases wGet d with _ | r
  · rfl
  · dsimp only
    split_ifs <;> rfl

theorem step_errDates (wGet : Nat → Option Response) (wWrite : Nat → Bool)
    (iso : Nat → String) (s : FetchState) (d : Nat) :
    (step wGet wWrite iso s d).errDates =
      s.errDates ++ (if raisesAt wGet wWrite d then [d] else []) := by
  unfold step raisesAt
  rcases wGet d with _ | r
  · simp
  · dsimp only
    split_ifs <;> simp_all

theorem step_counts (wGet : Nat → Option Response) (wWrite : Nat → Bool)
    (iso : Nat → String) (s : FetchState) (d : Nat) :
    (step wGet wWrite iso s d).saved + (step wGet wWrite iso s d).missing =
      s.saved + s.missing + (if raisesAt wGet wWrite d then 0 else 1) := by
  unfold step raisesAt
  rcases wGet d with _ | r
  · simp
  · dsimp only
    split_ifs <;> simp_all <;> omega

theorem mem_step_files (wGet : Nat → Option Response) (wWrite : Nat → Bool)
    (iso : Nat → String) (s : FetchState) (d : Nat) (e : String × List Nat) :
    e ∈ (step wGet wWrite iso s d).files ↔
      e ∈ s.files ∨
        ∃ r, wGet d = some r ∧ r.status = 200 ∧ looks_like_xml r.body = true ∧
          wWrite d = true ∧ e = (iso d ++ "_mul@.xml", r.body) := by
  unfold step
  rcases h : wGet d with _ | r
  · simp
  · dsimp only
    split_ifs with h1 h2 h3 <;>
      simp_all [List.mem_append, beq_iff_eq, Bool.and_eq_true]

theorem foldl_requests (wGet : Nat → Option Response) (wWrite : Nat → Bool)
    (iso : Nat → String) (l : List Nat) (s : FetchState) :
    ((l.foldl (step wGet wWrite iso) s).requests) = s.requests ++ l := by
  induction l generalizing s with
  | nil => simp
  | cons d l ih =>
    rw [List.foldl_cons, ih, step_requests]
    simp

theorem foldl_errDates (wGet : Nat → Option Response) (wWrite : Nat → Bool)
    (iso : Nat → String) (l : List Nat) (s : FetchState) :
    ((l.foldl (step wGet wWrite iso) s).errDates) =
      s.errDates ++ l.filter (fun d => raisesAt wGet wWrite d) := by
  induction l generalizing s with
  | nil => simp
  | cons d l ih =>
    rw [List.foldl_cons, ih, step_errDates, List.filter_cons]
    by_cases h : raisesAt wGet wWrite d = true <;> simp [h]

theorem foldl_counts (wGet : Nat → Option Response) (wWrite : Nat → Bool)
    (iso : Nat → String) (l : List Nat) (s : FetchState) :
    ((l.foldl (step wGet wWrite iso) s).saved +
        (l.foldl (step wGet wWrite iso) s).missing) =
      s.saved + s.missing +
        (l.filter (fun d => !(raisesAt wGet wWrite d))).length := by
  induction l generalizing s with
  | nil => simp
  | cons d l ih =>
    rw [List.foldl_cons, ih, step_counts, List.filter_cons]
    by_cases h : raisesAt wGet wWrite d = true <;> simp [h] <;> omega

theorem mem_foldl_files (wGet : Nat → Option Response) (wWrite : Nat → Bool)
    (iso : Nat → String) (l : List Nat) (s : FetchState) (e : String × List Nat) :
    e ∈ (l.foldl (step wGet wWrite iso) s).files ↔
      e ∈ s.files ∨
        ∃ d ∈ l, ∃ r, wGet d = some r ∧ r.status = 200 ∧
          looks_like_xml r.body = true ∧ wWrite d = true ∧
          e = (iso d ++ "_mul@.xml", r.body) := by
  induction l generalizing s with
  | nil => simp
  | cons d l ih =>
    rw [List.foldl_cons, ih, mem_step_files]
    constructor
    · rintro ((he | ⟨r, hr⟩) | ⟨d', hd', r, hr⟩)
      · exact Or.inl he
      · exact Or.inr ⟨d, List.mem_cons_self d l, r, hr⟩
      · exact Or.inr ⟨d', List.mem_cons_of_mem d hd', r, hr⟩
    · rintro (he | ⟨d', hd', r, hr⟩)
      · exact Or.inl (Or.inl he)
      · rcases List.mem_cons.mp hd' with rfl | hd'
        · exact Or.inl (Or.inr ⟨r, hr⟩)
        · exact Or.inr ⟨d', hd', r, hr⟩

/-- Bool-level `isPrefixOf` agrees with the `<+:` relation. -/
theorem isPrefixOf_true_iff {l1 l2 : List Nat} :
    l1.isPrefixOf l2 = true ↔ l1 <+: l2 := by
  exact List.isPrefixOf_iff_prefix

/-- A prefix of a list is a prefix of any long-enough initial segment. -/
theorem prefix_take_of_length_le {α : Type} {l₁ l₂ : List α} {n : Nat}
    (h : l₁ <+: l₂) (hn : l₁.length ≤ n) : l₁ <+: l₂.take n := by
  obtain ⟨t, rfl⟩ := h
  rw [List.take_append_eq_append_take, List.take_of_length_le hn]
  exact List.prefix_append _ _

/-- Only byte `60` (`<`) is sent to `60` by `lowerByte`. -/
theorem lowerByte_eq_60 {b : Nat} (h : lowerByte b = 60) : b = 60 := by
  unfold lowerByte at h
  split at h <;> omega

end FetchDebates

/-- C2: for every byte string shorter than 100 bytes (including the
empty string), `looks_like_xml` returns `False`. -/
theorem looks_like_xml_rejects_short (content : List Nat)
    (h : content.length < 100) :
    FetchDebates.looks_like_xml content = false := by
  unfold FetchDebates.looks_like_xml
  rw [if_pos (Or.inr h)]

/-- Witness for C2 at the concrete input `[60]` (and, via length `0`,
the empty string). -/
theorem looks_like_xml_rejects_short_witness :
    ([60] : List Nat).length < 100 ∧
      FetchDebates.looks_like_xml [60] = false ∧
      FetchDebates.looks_like_xml [] = false :=
  ⟨by decide, looks_like_xml_rejects_short [60] (by decide),
    looks_like_xml_rejects_short [] (by decide)⟩

/-- C3: every byte string that begins with `<!doctype html` or `<html`,
compared case-insensitively (the lowercased bytes have the literal as a
prefix), is rejected by `looks_like_xml`, whatever its length. -/
theorem looks_like_xml_rejects_html (content : List Nat)
    (h : FetchDebates.doctypeHtmlBytes.isPrefixOf
          (content.map FetchDebates.lowerByte) = true ∨
        FetchDebates.htmlTagBytes.isPrefixOf
          (content.map FetchDebates.lowerByte) = true) :
    FetchDebates.looks_like_xml content = false := by
  unfold FetchDebates.looks_like_xml
  by_cases hshort : content = [] ∨ content.length < 100
  · rw [if_pos hshort]
  · rw [if_neg hshort]
    dsimp only
    have hpre : FetchDebates.doctypeHtmlBytes <+: content.map FetchDebates.lowerByte ∨
        FetchDebates.htmlTagBytes <+: content.map FetchDebates.lowerByte := by
      rcases h with h | h
      · exact Or.inl (FetchDebates.isPrefixOf_true_iff.mp h)
      · exact Or.inr (FetchDebates.isPrefixOf_true_iff.mp h)
    obtain ⟨c, rest, rfl⟩ : ∃ c rest, content = c :: rest := by
      rcases content with _ | ⟨c, rest⟩
      · exact absurd (Or.inl rfl) hshort
      · exact ⟨c, rest, rfl⟩
    have hc : c = 60 := by
      rcases hpre with ⟨t, ht⟩ | ⟨t, ht⟩ <;>
        (rw [List.map_cons] at ht; injection ht with h1 _;
         exact FetchDebates.lowerByte_eq_60 h1.symm)
    have hdrop : (c :: rest).dropWhile FetchDebates.isSpaceByte = c :: rest := by
      rw [List.dropWhile_cons_of_neg]
      rw [hc]
      decide
    rw [hdrop]
    have hhead : FetchDebates.doctypeHtmlBytes.isPrefixOf
          (((c :: rest).take 500).map FetchDebates.lowerByte) = true ∨
        FetchDebates.htmlTagBytes.isPrefixOf
          (((c :: rest).take 500).map FetchDebates.lowerByte) = true := by
      rw [List.map_take]
      rcases hpre with hp | hp
      · exact Or.inl (FetchDebates.isPrefixOf_true_iff.mpr
          (FetchDebates.prefix_take_of_length_le hp (by simp [FetchDebates.doctypeHtmlBytes])))
      · exact Or.inr (FetchDebates.isPrefixOf_true_iff.mpr
          (FetchDebates.prefix_take_of_length_le hp (by simp [FetchDebates.htmlTagBytes])))
    rcases hhead with hh | hh
    · rw [if_pos (by rw [hh]; rfl)]
    · rw [if_pos (by rw [hh, Bool.or_true])]

/-- Witness for C3: a 115-byte body starting with `<!DOCTYPE HTML` (note
the case) is rejected, as is the 5-byte body `<html`. -/
theorem looks_like_xml_rejects_html_witness :
    (FetchDebates.doctypeHtmlBytes.isPrefixOf
        (((60 :: 33 :: 68 :: 79 :: 67 :: 84 :: 89 :: 80 :: 69 :: 32 ::
          72 :: 84 :: 77 :: 76 :: List.replicate 101 97 : List Nat)).map
          FetchDebates.lowerByte) = true) ∧
      FetchDebates.looks_like_xml
        (60 :: 33 :: 68 :: 79 :: 67 :: 84 :: 89 :: 80 :: 69 :: 32 ::
          72 :: 84 :: 77 :: 76 :: List.replicate 101 97) = false ∧
      FetchDebates.looks_like_xml [60, 104, 116, 109, 108] = false :=
  ⟨by decide,
    looks_like_xml_rejects_html _ (Or.inl (by decide)),
    looks_like_xml_rejects_html _ (Or.inr (by decide))⟩

/-- C1: for start ≤ end, the fetch loop calls `session.get` exactly once
per calendar day of the inclusive date range, in ascending order: the
request trace is strictly sorted and holds precisely the dates `d` with
start ≤ d ≤ end. -/
theorem fetch_requests_one_per_day_ascending
    (wGet : Nat → Option FetchDebates.Response) (wWrite : Nat → Bool)
    (iso : Nat → String) (startD endD : Nat) (h : startD ≤ endD) :
    List.Sorted (· < ·)
        (FetchDebates.main wGet wWrite iso startD endD).requests ∧
      ∀ d : Nat,
        d ∈ (FetchDebates.main wGet wWrite iso startD endD).requests ↔
          startD ≤ d ∧ d ≤ endD := by
  have hreq : (FetchDebates.main wGet wWrite iso startD endD).requests =
      List.range' startD (endD + 1 - startD) := by
    unfold FetchDebates.main
    rw [FetchDebates.foldl_requests]
    rfl
  rw [hreq]
  constructor
  · exact List.pairwise_lt_range' startD (endD + 1 - startD) 1 (by omega)
  · intro d
    rw [List.mem_range'_1]
    omega

/-- Witness for C1: the range 5..7 with a trivial network oracle. -/
theorem fetch_requests_one_per_day_ascending_witness :
    List.Sorted (· < ·)
        (FetchDebates.main (fun _ => none) (fun _ => true) (fun _ => "") 5 7).requests ∧
      ∀ d : Nat,
        d ∈ (FetchDebates.main (fun _ => none) (fun _ => true) (fun _ => "") 5 7).requests ↔
          5 ≤ d ∧ d ≤ 7 :=
  fetch_requests_one_per_day_ascending (fun _ => none) (fun _ => true)
    (fun _ => "") 5 7 (by decide)

/-- C7: if the iteration for a date in range raises (GET or write), the
exception is caught — the date is logged in `errDates` — and the loop
still performs the GET for every date of the range. -/
theorem fetch_exception_caught_loop_continues
    (wGet : Nat → Option FetchDebates.Response) (wWrite : Nat → Bool)
    (iso : Nat → String) (startD endD d : Nat)
    (h1 : startD ≤ d) (h2 : d ≤ endD)
    (hraise : FetchDebates.raisesAt wGet wWrite d = true) :
    d ∈ (FetchDebates.main wGet wWrite iso startD endD).errDates ∧
      ∀ d' : Nat, startD ≤ d' → d' ≤ endD →
        d' ∈ (FetchDebates.main wGet wWrite iso startD endD).requests := by
  constructor
  · unfold FetchDebates.main
    rw [FetchDebates.foldl_errDates]
    refine List.mem_append_right _ (List.mem_filter.mpr ⟨?_, hraise⟩)
    rw [List.mem_range'_1]
    omega
  · intro d' h1' h2'
    unfold FetchDebates.main
    rw [FetchDebates.foldl_requests]
    refine List.mem_append_right _ ?_
    rw [List.mem_range'_1]
    omega

/-- Witness for C7: the GET for date 6 raises, dates 5..7 are all still
requested. -/
theorem fetch_exception_caught_loop_continues_witness :
    6 ∈ (FetchDebates.main
          (fun n => if n = 6 then none else some ⟨404, []⟩)
          (fun _ => true) (fun _ => "") 5 7).errDates ∧
      ∀ d' : Nat, 5 ≤ d' → d' ≤ 7 →
        d' ∈ (FetchDebates.main
          (fun n => if n = 6 then none else some ⟨404, []⟩)
          (fun _ => true) (fun _ => "") 5 7).requests :=
  fetch_exception_caught_loop_continues
    (fun n => if n = 6 then none else some ⟨404, []⟩)
    (fun _ => true) (fun _ => "") 5 7 6 (by decide) (by decide) (by decide)

/-- C8: a file is written only for a date whose response has status 200
and a body accepted by `looks_like_xml`; the file is then named
`<iso date>_mul@.xml` and holds exactly the response body. -/
theorem fetch_writes_only_checked_bodies
    (wGet : Nat → Option FetchDebates.Response) (wWrite : Nat → Bool)
    (iso : Nat → String) (startD endD : Nat) (e : String × List Nat)
    (he : e ∈ (FetchDebates.main wGet wWrite iso startD endD).files) :
    ∃ d, startD ≤ d ∧ d ≤ endD ∧
      ∃ r, wGet d = some r ∧ r.status = 200 ∧
        FetchDebates.looks_like_xml r.body = true ∧
        e = (iso d ++ "_mul@.xml", r.body) := by
  unfold FetchDebates.main at he
  rw [FetchDebates.mem_foldl_files] at he
  rcases he with he | ⟨d, hd, r, hr1, hr2, hr3, _, hr5⟩
  · simp [FetchDebates.initState] at he
  · rw [List.mem_range'_1] at hd
    exact ⟨d, by omega, by omega, r, hr1, hr2, hr3, hr5⟩

/-- Witness for C8: a single-date run whose 200 response passes the
sniff writes the file named by the date with the body as contents. -/
theorem fetch_writes_only_checked_bodies_witness :
    (("2026-01-05_mul@.xml", (60 :: List.replicate 120 97 : List Nat)) ∈
        (FetchDebates.main
          (fun _ => some ⟨200, 60 :: List.replicate 120 97⟩)
          (fun _ => true) (fun _ => "2026-01-05") 3 3).files) ∧
      ∃ d, 3 ≤ d ∧ d ≤ 3 ∧
        ∃ r, (fun _ : Nat => some (⟨200, 60 :: List.replicate 120 97⟩ :
            FetchDebates.Response)) d = some r ∧ r.status = 200 ∧
          FetchDebates.looks_like_xml r.body = true ∧
          ("2026-01-05_mul@.xml", (60 :: List.replicate 120 97 : List Nat)) =
            ((fun _ : Nat => "2026-01-05") d ++ "_mul@.xml", r.body) :=
  ⟨by decide,
    fetch_writes_only_checked_bodies
      (fun _ => some ⟨200, 60 :: List.replicate 120 97⟩)
      (fun _ => true) (fun _ => "2026-01-05") 3 3
      ("2026-01-05_mul@.xml", 60 :: List.replicate 120 97) (by decide)⟩

/-- C10: an exception-free iteration bumps exactly one counter — `saved`
when the response is a 200 whose body passes the sniff and the write
succeeds, `missing` otherwise — an iteration that raises bumps neither,
and so at loop end `saved + missing` is the number of exception-free
iterations. -/
theorem fetch_saved_missing_count_exception_free
    (wGet : Nat → Option FetchDebates.Response) (wWrite : Nat → Bool)
    (iso : Nat → String) (startD endD : Nat) :
    (∀ (s : FetchDebates.FetchState) (d : Nat) (r : FetchDebates.Response),
        wGet d = some r → r.status = 200 →
        FetchDebates.looks_like_xml r.body = true → wWrite d = true →
        (FetchDebates.step wGet wWrite iso s d).saved = s.saved + 1 ∧
          (FetchDebates.step wGet wWrite iso s d).missing = s.missing) ∧
      (∀ (s : FetchDebates.FetchState) (d : Nat) (r : FetchDebates.Response),
        wGet d = some r →
        ¬(r.status = 200 ∧ FetchDebates.looks_like_xml r.body = true) →
        (FetchDebates.step wGet wWrite iso s d).saved = s.saved ∧
          (FetchDebates.step wGet wWrite iso s d).missing = s.missing + 1) ∧
      (∀ (s : FetchDebates.FetchState) (d : Nat),
        FetchDebates.raisesAt wGet wWrite d = true →
        (FetchDebates.step wGet wWrite iso s d).saved = s.saved ∧
          (FetchDebates.step wGet wWrite iso s d).missing = s.missing) ∧
      ((FetchDebates.main wGet wWrite iso startD endD).saved +
          (FetchDebates.main wGet wWrite iso startD endD).missing =
        ((List.range' startD (endD + 1 - startD)).filter
          (fun d => !(FetchDebates.raisesAt wGet wWrite d))).length) := by
  refine ⟨?_, ?_, ?_, ?_⟩
  · intro s d r hget h200 hsniff hwrite
    unfold FetchDebates.step
    rw [hget]
    dsimp only
    rw [if_neg (by simp [h200]), if_pos (by simp [h200, hsniff]), if_pos hwrite]
    exact ⟨rfl, rfl⟩
  · intro s d r hget hnot
    unfold FetchDebates.step
    rw [hget]
    dsimp only
    by_cases h404 : r.status = 404
    · rw [if_pos (by simp [h404])]
      exact ⟨rfl, rfl⟩
    · rw [if_neg (by simp [h404]),
        if_neg (by simp only [Bool.and_eq_true, beq_iff_eq]; tauto)]
      exact ⟨rfl, rfl⟩
  · intro s d hraise
    unfold FetchDebates.raisesAt at hraise
    unfold FetchDebates.step
    rcases hget : wGet d with _ | r
    · exact ⟨rfl, rfl⟩
    · rw [hget] at hraise
      dsimp only at hraise ⊢
      split_ifs at hraise ⊢ with h1 h2 h3
      · exact absurd hraise (by simp [h3])
      · exact ⟨rfl, rfl⟩
  · unfold FetchDebates.main
    rw [FetchDebates.foldl_counts]
    simp [FetchDebates.initState]

/-- Witness for C10: a saved iteration bumps `saved` alone, and on the
one-date range 3..3 the final counters sum to the one exception-free
iteration. -/
theorem fetch_saved_missing_count_exception_free_witness :
    ((FetchDebates.step
          (fun _ => some ⟨200, 60 :: List.replicate 120 97⟩)
          (fun _ => true) (fun _ => "2026-01-05")
          FetchDebates.initState 3).saved = FetchDebates.initState.saved + 1 ∧
        (FetchDebates.step
          (fun _ => some ⟨200, 60 :: List.replicate 120 97⟩)
          (fun _ => true) (fun _ => "2026-01-05")
          FetchDebates.initState 3).missing = FetchDebates.initState.missing) ∧
      ((FetchDebates.main
            (fun _ => some ⟨200, 60 :: List.replicate 120 97⟩)
            (fun _ => true) (fun _ => "2026-01-05") 3 3).saved +
          (FetchDebates.main
            (fun _ => some ⟨200, 60 :: List.replicate 120 97⟩)
            (fun _ => true) (fun _ => "2026-01-05") 3 3).missing =
        ((List.range' 3 (3 + 1 - 3)).filter
          (fun d => !(FetchDebates.raisesAt
            (fun _ => some ⟨200, 60 :: List.replicate 120 97⟩)
            (fun _ => true) d))).length) :=
  ⟨(fetch_saved_missing_count_exception_free
      (fun _ => some ⟨200, 60 :: List.replicate 120 97⟩)
      (fun _ => true) (fun _ => "2026-01-05") 3 3).1
      FetchDebates.initState 3 ⟨200, 60 :: List.replicate 120 97⟩
      rfl rfl (by decide) rfl,
    (fetch_saved_missing_count_exception_free
      (fun _ => some ⟨200, 60 :: List.replicate 120 97⟩)
      (fun _ => true) (fun _ => "2026-01-05") 3 3).2.2.2⟩

namespace GenerateAvailableDates

theorem charListLe_total : ∀ as bs : List Char,
    charListLe as bs = true ∨ charListLe bs as = true := by
  intro as
  induction as with
  | nil => intro bs; left; rfl
  | cons a as ih =>
    intro bs
    cases bs with
    | nil => right; rfl
    | cons b bs =>
      unfold charListLe
      rcases lt_trichotomy a b with h | h | h
      · left; rw [if_pos h]
      · subst h
        rw [if_neg (lt_irrefl a), if_pos rfl, if_neg (lt_irrefl a), if_pos rfl]
        exact ih bs
      · right; rw [if_pos h]

theorem charListLe_trans : ∀ as bs cs : List Char,
    charListLe as bs = true → charListLe bs cs = true →
      charListLe as cs = true := by
  intro as
  induction as with
  | nil => intro bs cs _ _; rfl
  | cons a as ih =>
    intro bs cs h1 h2
    cases bs with
    | nil => exact absurd h1 (by simp [charListLe])
    | cons b bs =>
      cases cs with
      | nil => exact absurd h2 (by simp [charListLe])
      | cons c cs =>
        unfold charListLe at h1 h2 ⊢
        rcases lt_trichotomy a b with hab | hab | hab
        · rcases lt_trichotomy b c with hbc | hbc | hbc
          · rw [if_pos (lt_trans hab hbc)]
          · subst hbc
            rw [if_pos hab]
          · rw [if_neg (lt_asymm hbc), if_neg hbc.ne'] at h2
            exact absurd h2 Bool.false_ne_true
        · subst hab
          rw [if_neg (lt_irrefl a), if_pos rfl] at h1
          rcases lt_trichotomy a c with hac | hac | hac
          · rw [if_pos hac]
          · subst hac
            rw [if_neg (lt_irrefl a), if_pos rfl] at h2 ⊢
            exact ih bs cs h1 h2
          · rw [if_neg (lt_asymm hac), if_neg hac.ne'] at h2
            exact absurd h2 Bool.false_ne_true
        · rw [if_neg (lt_asymm hab), if_neg hab.ne'] at h1
          exact absurd h1 Bool.false_ne_true

theorem isDateDigits_length {cs : List Char} (h : isDateDigits cs = true) :
    cs.length = 10 := by
  unfold isDateDigits at h
  split at h
  · simp_all
  · exact absurd h Bool.false_ne_true

theorem matchWindow_eq_some_iff (cs ds : List Char) :
    matchWindow cs = some ds ↔
      ∃ pre : List Char,
        cs = pre ++ ds ++ xmlSuffix ∧ isDateDigits ds = true := by
  unfold matchWindow
  constructor
  · intro h
    split_ifs at h with hlen hcond
    rw [Bool.and_eq_true, beq_iff_eq] at hcond
    obtain ⟨hdig, hsuf⟩ := hcond
    rw [Option.some.injEq] at h
    subst h
    refine ⟨cs.take (cs.length - 19), ?_, hdig⟩
    rw [List.append_assoc, ← hsuf, List.take_append_drop,
      List.take_append_drop]
  · rintro ⟨pre, hdecomp, hdig⟩
    have hd10 : ds.length = 10 := isDateDigits_length hdig
    have hslen : cs.length = pre.length + 19 := by
      rw [hdecomp]
      have hx : xmlSuffix.length = 9 := rfl
      simp only [List.length_append, hd10, hx]
    have hdrop : cs.drop (cs.length - 19) = ds ++ xmlSuffix := by
      rw [hslen, hdecomp, List.append_assoc]
      have h19 : pre.length + 19 - 19 = pre.length := by omega
      rw [h19, List.drop_left]
    rw [if_neg (by omega), hdrop, List.take_left' hd10, List.drop_left' hd10]
    rw [if_pos (by rw [hdig, beq_self_eq_true]; rfl)]

/-- A list ending in the literal `_mul@.xml` has last character `l`. -/
theorem getLast?_append_xmlSuffix (l : List Char) :
    (l ++ xmlSuffix).getLast? = some 'l' := by
  rw [List.getLast?_append]
  rfl

theorem extractDate_eq_some_iff (s d : String) :
    extractDate s = some d ↔
      ∃ pre : List Char,
        (s.data = pre ++ d.data ++ xmlSuffix ∨
          s.data = pre ++ d.data ++ xmlSuffix ++ [newlineChar]) ∧
        isDateDigits d.data = true := by
  unfold extractDate
  by_cases hnl : s.data.getLast? = some newlineChar
  · rw [if_pos hnl, Option.map_eq_some']
    constructor
    · rintro ⟨ds, hmw, hmk⟩
      have hds : ds = d.data := by rw [← hmk]
      subst hds
      obtain ⟨pre, hdec, hdig⟩ := (matchWindow_eq_some_iff _ _).mp hmw
      obtain ⟨ys, hys⟩ := List.getLast?_eq_some_iff.mp hnl
      have hdl : s.data.dropLast = ys := by rw [hys, List.dropLast_concat]
      refine ⟨pre, Or.inr ?_, hdig⟩
      rw [hys, ← hdl, hdec]
    · rintro ⟨pre, hdec | hdec, hdig⟩
      · exfalso
        rw [hdec, getLast?_append_xmlSuffix] at hnl
        exact absurd hnl (by decide)
      · refine ⟨d.data, ?_, rfl⟩
        have hdl : s.data.dropLast = pre ++ d.data ++ xmlSuffix := by
          rw [hdec]
          exact List.dropLast_concat
        rw [hdl]
        exact (matchWindow_eq_some_iff _ _).mpr ⟨pre, rfl, hdig⟩
  · rw [if_neg hnl, Option.map_eq_some']
    constructor
    · rintro ⟨ds, hmw, hmk⟩
      have hds : ds = d.data := by rw [← hmk]
      subst hds
      obtain ⟨pre, hdec, hdig⟩ := (matchWindow_eq_some_iff _ _).mp hmw
      exact ⟨pre, Or.inl hdec, hdig⟩
    · rintro ⟨pre, hdec | hdec, hdig⟩
      · exact ⟨d.data, (matchWindow_eq_some_iff _ _).mpr ⟨pre, hdec, hdig⟩, rfl⟩
      · exfalso
        apply hnl
        rw [hdec]
        exact List.getLast?_concat _

end GenerateAvailableDates

/-- C4: on the listing `["2026-02-01_mul@.xml", "2026-02-03_mul@.xml",
"notes.txt"]` the index generator produces exactly
`["2026-02-01", "2026-02-03"]`. -/
theorem index_generator_example :
    GenerateAvailableDates.main
        ["2026-02-01_mul@.xml", "2026-02-03_mul@.xml", "notes.txt"] =
      ["2026-02-01", "2026-02-03"] := by decide

/-- C9: the extraction checks only digit shape, not calendar validity,
and the pattern has no start anchor: `2026-99-99_mul@.xml` yields the
non-date `2026-99-99`, and a leading junk character as in
`x2026-02-01_mul@.xml` does not prevent the match. -/
theorem index_generator_no_calendar_validation :
    GenerateAvailableDates.main ["2026-99-99_mul@.xml"] = ["2026-99-99"] ∧
      GenerateAvailableDates.main ["x2026-02-01_mul@.xml"] = ["2026-02-01"] := by
  decide

/-- C5, as stated, is false for the program: Python's `$` also matches
just before a newline that ends the string, so on the listing
`["2026-02-01_mul@.xml\n"]` the output contains `"2026-02-01"` although
no path has the date-and-suffix block at its very end. -/
theorem index_generator_end_anchored_iff_counterexample :
    ¬ ∀ files : List String,
        List.Sorted (fun a b => GenerateAvailableDates.pyLe a b = true)
            (GenerateAvailableDates.main files) ∧
          (GenerateAvailableDates.main files).Nodup ∧
          ∀ dstr : String,
            dstr ∈ GenerateAvailableDates.main files ↔
              ∃ f ∈ files, ∃ pre : List Char,
                f.data = pre ++ dstr.data ++ GenerateAvailableDates.xmlSuffix ∧
                  GenerateAvailableDates.isDateDigits dstr.data = true := by
  intro hclaim
  have hiff := (hclaim ["2026-02-01_mul@.xml\n"]).2.2 "2026-02-01"
  have hmem : "2026-02-01" ∈
      GenerateAvailableDates.main ["2026-02-01_mul@.xml\n"] := by decide
  obtain ⟨f, hf, pre, hdec, -⟩ := hiff.mp hmem
  rw [List.mem_singleton] at hf
  subst hf
  have hlast := GenerateAvailableDates.getLast?_append_xmlSuffix
    (pre ++ ("2026-02-01").data)
  rw [← hdec] at hlast
  exact absurd hlast (by decide)

/-- C5 (amended): for every listing, the generated index is sorted
ascending (in Python's string order), duplicate-free, and holds a date
string exactly when some listed path carries the `\d`-shaped date block
followed by `_mul@.xml` at its very end, or immediately before a
newline that ends the path — the two positions at which the regex's
`$` can match. -/
theorem index_generator_sorted_nodup_complete_amended (files : List String) :
    List.Sorted (fun a b => GenerateAvailableDates.pyLe a b = true)
        (GenerateAvailableDates.main files) ∧
      (GenerateAvailableDates.main files).Nodup ∧
      ∀ dstr : String,
        dstr ∈ GenerateAvailableDates.main files ↔
          ∃ f ∈ files, ∃ pre : List Char,
            (f.data = pre ++ dstr.data ++ GenerateAvailableDates.xmlSuffix ∨
              f.data = pre ++ dstr.data ++ GenerateAvailableDates.xmlSuffix ++
                [GenerateAvailableDates.newlineChar]) ∧
              GenerateAvailableDates.isDateDigits dstr.data = true := by
  unfold GenerateAvailableDates.main
  refine ⟨?_, ?_, ?_⟩
  · exact @List.sorted_insertionSort String
      (fun a b => GenerateAvailableDates.pyLe a b = true) _
      ⟨fun a b => GenerateAvailableDates.charListLe_total a.data b.data⟩
      ⟨fun a b c => GenerateAvailableDates.charListLe_trans a.data b.data c.data⟩
      _
  · exact (List.perm_insertionSort _ _).nodup_iff.mpr (List.nodup_dedup _)
  · intro dstr
    rw [List.mem_insertionSort, List.mem_dedup, List.mem_filterMap]
    constructor
    · rintro ⟨f, hf, hex⟩
      exact ⟨f, hf, (GenerateAvailableDates.extractDate_eq_some_iff f dstr).mp hex⟩
    · rintro ⟨f, hf, hdec⟩
      exact ⟨f, hf, (GenerateAvailableDates.extractDate_eq_some_iff f dstr).mpr hdec⟩

/-- C6: when the configured source directory is missing, the upload
script raises `SystemExit` before listing files: the call trace is
empty — in particular no upload call — and the outcome is the error. -/
theorem upload_aborts_when_dir_missing (w : UpToHF.UpWorld)
    (h : w.dailDirExists = false) :
    (UpToHF.main w).1 = [] ∧
      UpToHF.UpEvent.uploadLargeFolder ∉ (UpToHF.main w).1 ∧
      UpToHF.UpEvent.rglobList ∉ (UpToHF.main w).1 ∧
      (UpToHF.main w).2 =
        Except.error ("DAIL_DIR not found: " ++ UpToHF.DAIL_DIR) := by
  unfold UpToHF.main
  rw [if_pos h]
  exact ⟨rfl, by simp, by simp, rfl⟩

/-- Witness for C6: a world with files on disk but no directory. -/
theorem upload_aborts_when_dir_missing_witness :
    (UpToHF.main ⟨false, ["2026-02-01_mul@.xml"]⟩).1 = [] ∧
      UpToHF.UpEvent.uploadLargeFolder ∉
        (UpToHF.main ⟨false, ["2026-02-01_mul@.xml"]⟩).1 ∧
      UpToHF.UpEvent.rglobList ∉
        (UpToHF.main ⟨false, ["2026-02-01_mul@.xml"]⟩).1 ∧
      (UpToHF.main ⟨false, ["2026-02-01_mul@.xml"]⟩).2 =
        Except.error ("DAIL_DIR not found: " ++ UpToHF.DAIL_DIR) :=
  upload_aborts_when_dir_missing ⟨false, ["2026-02-01_mul@.xml"]⟩ rfl
